import Mathlib

/-
Verification of the organoid electrophysiology analysis pipeline
(workflow/pipeline/frame.py and workflow/pipeline/analysis.py).

The Python source is shallowly embedded: numpy arrays become lists over ℚ
(for quantities the claims compare exactly) or ℝ (for spectral power values
that are genuinely irrational), Python ints become ℤ/ℕ, and fallible steps
return Option/Except.  Machine floats are modelled by exact rationals and
reals; the claims settled here depend on index arithmetic, selection logic
and control flow, not on float rounding.
-/

namespace UtahOrganoids

/-! ## Shared helpers: Python numeric casts

Python `int(x)` (and `np.ndarray.astype(int)`) truncate toward zero.
`round` is the rounding the spec asks for; Mathlib `round` rounds half
away from the floor, Python `round` is banker-style, but the
counterexample below avoids exact ties between those two conventions
by never producing a tie at all or by producing a tie where both
conventions agree and both disagree with truncation. -/

/-- Python int() cast: truncation toward zero, from analysis.py lines 94 and 95
`nperseg=int(window_size * lfp_sampling_rate)` and
`noverlap=int(overlap_size * lfp_sampling_rate)`, and from frame.py line 320
`.astype(int)`. -/
def pyInt (q : ℚ) : ℤ := if 0 ≤ q then ⌊q⌋ else -⌊-q⌋

/-- The code computes nperseg by the Python int cast of window_size × sampling rate
(analysis.py line 94). -/
def npersegCode (windowSize samplingRate : ℚ) : ℤ := pyInt (windowSize * samplingRate)

/-- The code computes noverlap by the Python int cast of overlap_size × sampling rate
(analysis.py line 95). -/
def noverlapCode (overlapSize samplingRate : ℚ) : ℤ := pyInt (overlapSize * samplingRate)

/-- Modelled from the spec: `nperseg = round(window_length × sampling_rate)` with a
genuine rounding rule (the spec sentence for C7 demands a round, not a truncation).
Mathlib round is used; at the concrete counterexample value 501.5 every standard
rounding convention (half-up, half-even) yields 502, so the counterexample does not
depend on the tie-breaking convention. -/
def npersegSpec (windowSize samplingRate : ℚ) : ℤ := round (windowSize * samplingRate)

theorem pyInt_nonneg_eq_floor (q : ℚ) (h : 0 ≤ q) : pyInt q = ⌊q⌋ := by
  simp [pyInt, h]

/-! ## C7: nperseg / noverlap conversion rule -/

/-- C7: the claim states the conversion of window_length × sampling_rate is a round;
the code truncates via int cast.  At window_size = 1/2 s and sampling rate 1003 Hz the
product is 501.5: the code yields 501 while any rounding yields 502. -/
theorem c7_counterexample :
    npersegCode (1/2) 1003 = 501 ∧ npersegSpec (1/2) 1003 = 502 ∧
    npersegCode (1/2) 1003 ≠ npersegSpec (1/2) 1003 := by
  have h1 : npersegCode (1/2) 1003 = 501 := by
    rw [npersegCode, show ((1:ℚ)/2 * 1003) = 1003/2 by norm_num, pyInt]
    rw [if_pos (by norm_num)]
    rw [show (⌊(1003:ℚ)/2⌋ = 501) from by rw [Int.floor_eq_iff]; norm_num]
  have h2 : npersegSpec (1/2) 1003 = 502 := by
    rw [npersegSpec, show ((1:ℚ)/2 * 1003) = 1003/2 by norm_num, round_eq]
    rw [show ((1003:ℚ)/2 + 1/2 : ℚ) = 502 by norm_num]
    exact_mod_cast Int.floor_intCast 502
  exact ⟨h1, h2, by rw [h1, h2]; decide⟩

/-- C7 (amended): nperseg and noverlap are both obtained by the Python int cast,
which on the nonnegative products of window parameters and sampling rate is the
floor (truncation), the same rule applied consistently to both quantities; when the
product is not an integer the conversion truncates strictly below the product
rather than rounding. -/
theorem c7_truncation (w o fs : ℚ) (hw : 0 ≤ w * fs) (ho : 0 ≤ o * fs) :
    npersegCode w fs = ⌊w * fs⌋ ∧ noverlapCode o fs = ⌊o * fs⌋ ∧
    ((npersegCode w fs : ℚ) ≤ w * fs ∧ w * fs < npersegCode w fs + 1) ∧
    ((¬ ∃ z : ℤ, (z : ℚ) = w * fs) → (npersegCode w fs : ℚ) < w * fs) := by
  have h1 : npersegCode w fs = ⌊w * fs⌋ := pyInt_nonneg_eq_floor _ hw
  have h2 : noverlapCode o fs = ⌊o * fs⌋ := pyInt_nonneg_eq_floor _ ho
  refine ⟨h1, h2, ⟨?_, ?_⟩, ?_⟩
  · rw [h1]; exact Int.floor_le _
  · rw [h1]; exact Int.lt_floor_add_one _
  · intro hni
    rw [h1]
    rcases lt_or_eq_of_le (Int.floor_le (w * fs)) with h | h
    · exact h
    · exact absurd ⟨⌊w * fs⌋, h⟩ hni

theorem c7_truncation_witness :
    npersegCode (1/2) 1003 = ⌊(1/2 : ℚ) * 1003⌋ ∧
    noverlapCode 0 1003 = ⌊(0 : ℚ) * 1003⌋ ∧
    ((npersegCode (1/2) 1003 : ℚ) ≤ (1/2 : ℚ) * 1003 ∧
      (1/2 : ℚ) * 1003 < npersegCode (1/2) 1003 + 1) ∧
    ((¬ ∃ z : ℤ, (z : ℚ) = (1/2 : ℚ) * 1003) →
      (npersegCode (1/2) 1003 : ℚ) < (1/2 : ℚ) * 1003) :=
  c7_truncation (1/2) 0 1003 (by norm_num) (by norm_num)

/-! ## C6: the Connectivity pair loop (frame.py lines 404 to 429)

The code iterates electrode_A over range(num_elec_inside) (outer loop) and
electrode_B over range(num_elec_inside) (inner loop) and skips any iteration
with electrode_A >= electrode_B; every surviving iteration inserts exactly one
Connectivity record keyed (electrode_A, electrode_B).  `List.product` reproduces
the outer/inner iteration order, and the filter keeps exactly the non-skipped
iterations. -/

/-- The (electrode_A, electrode_B) keys of the Connectivity records produced for a
frame with n valid electrodes, in production order. -/
def connectivityPairs (n : ℕ) : List (ℕ × ℕ) :=
  ((List.range n).product (List.range n)).filter (fun ab => ab.1 < ab.2)

/-- C6: the Connectivity analysis produces exactly one record per unordered pair
(A, B) with A < B and both below the valid-electrode count, never a self pair and
never a duplicate, and for fewer than two valid electrodes the record set is empty
(the loops simply run zero surviving iterations; nothing raises). -/
theorem c6_connectivity_pairs (n : ℕ) :
    (∀ a b : ℕ, (a, b) ∈ connectivityPairs n ↔ (a < b ∧ b < n)) ∧
    (connectivityPairs n).Nodup ∧
    (∀ a b : ℕ, (a, b) ∈ connectivityPairs n → a ≠ b) ∧
    (n < 2 → connectivityPairs n = []) := by
  have hmem : ∀ a b : ℕ, (a, b) ∈ connectivityPairs n ↔ (a < b ∧ b < n) := by
    intro a b
    simp only [connectivityPairs, List.mem_filter, List.pair_mem_product,
      List.mem_range, decide_eq_true_eq]
    constructor
    · rintro ⟨⟨_, hb⟩, hab⟩; exact ⟨hab, hb⟩
    · rintro ⟨hab, hb⟩; exact ⟨⟨lt_trans hab hb, hb⟩, hab⟩
  refine ⟨hmem, ?_, ?_, ?_⟩
  · exact ((List.nodup_range n).product (List.nodup_range n)).filter _
  · intro a b hab
    exact Nat.ne_of_lt ((hmem a b).mp hab).1
  · intro hn
    rw [List.eq_nil_iff_forall_not_mem]
    rintro ⟨a, b⟩ hab
    have := (hmem a b).mp hab
    omega

theorem c6_connectivity_pairs_witness : connectivityPairs 1 = [] :=
  (c6_connectivity_pairs 1).2.2.2 (by decide)

/-! ## C10: burst raster offsets (frame.py lines 311 to 321)

For one electrode the code selects
`elec_spike_times[((index-num_burst_samples) <= elec_spike_times) &
(elec_spike_times <= (index+num_burst_samples))]` (both ends inclusive) and maps
each selected spike time to
`(burst_spike_times - (index-num_burst_samples)).astype(int)`, an index into the
last axis of the raster, which has size `2*num_burst_samples` (line 288).
Spike times are modelled as exact rationals (milliseconds from frame start). -/

/-- Number of raster samples on each side of a burst peak:
`num_burst_samples = int(burst_extract_dur / 1 ms) = 1000` (frame.py line 279). -/
def numBurstSamples : ℕ := 1000

/-- The spike times (in ms) selected for one electrode and one burst window:
the inclusive-both-ends filter of frame.py line 317. -/
def burstWindowSpikes (spikes : List ℚ) (index : ℕ) (nbs : ℕ) : List ℚ :=
  spikes.filter (fun t => ((index : ℚ) - nbs ≤ t) ∧ (t ≤ (index : ℚ) + nbs))

/-- The raster time-axis indices written for one electrode and one burst:
frame.py line 320, `(burst_spike_times - (index-num_burst_samples)).astype(int)`. -/
def burstSpikeOffsets (spikes : List ℚ) (index : ℕ) (nbs : ℕ) : List ℤ :=
  (burstWindowSpikes spikes index nbs).map (fun t => pyInt (t - ((index : ℚ) - nbs)))

/-- C10: the claim states every computed raster offset is strictly below the time
dimension 2 × 1000; a spike at exactly peak + 1000 ms is selected by the inclusive
filter and yields offset 2000, which is not strictly below 2000 (numpy raises
IndexError on the write).  Concrete input: burst peak at 1500 ms, one spike at
2500 ms. -/
theorem c10_counterexample :
    (2000 : ℤ) ∈ burstSpikeOffsets [2500] 1500 numBurstSamples ∧
    ¬ ((2000 : ℤ) < 2 * (numBurstSamples : ℤ)) := by
  constructor
  · show (2000 : ℤ) ∈ burstSpikeOffsets [2500] 1500 1000
    rw [burstSpikeOffsets, List.mem_map]
    have h1 : (2500 : ℚ) ∈ burstWindowSpikes [2500] 1500 1000 := by
      rw [burstWindowSpikes, List.mem_filter]
      refine ⟨List.mem_singleton_self _, ?_⟩
      rw [decide_eq_true_eq]
      constructor <;> push_cast <;> norm_num
    refine ⟨2500, h1, ?_⟩
    rw [pyInt, if_pos (by push_cast; norm_num)]
    rw [show ((2500 : ℚ) - (((1500 : ℕ) : ℚ) - ((1000 : ℕ) : ℚ))) = ((2000 : ℤ) : ℚ) by
      push_cast; norm_num]
    exact Int.floor_intCast _
  · show ¬ ((2000 : ℤ) < 2 * ((1000 : ℕ) : ℤ))
    push_cast
    norm_num

/-- C10 (amended): every raster offset computed from a selected spike lies in
[0, 2 × num_burst_samples]; it is strictly below the raster time dimension
2 × num_burst_samples exactly for spikes strictly before peak + 1 s, while a spike
at exactly peak + 1 s (admitted by the inclusive filter) maps to offset
2 × num_burst_samples, one past the last valid index. -/
theorem c10_offsets (spikes : List ℚ) (index nbs : ℕ) (t : ℚ)
    (ht : t ∈ burstWindowSpikes spikes index nbs) :
    0 ≤ pyInt (t - ((index : ℚ) - nbs)) ∧
    pyInt (t - ((index : ℚ) - nbs)) ∈ burstSpikeOffsets spikes index nbs ∧
    pyInt (t - ((index : ℚ) - nbs)) ≤ 2 * (nbs : ℤ) ∧
    (t < (index : ℚ) + nbs → pyInt (t - ((index : ℚ) - nbs)) < 2 * (nbs : ℤ)) ∧
    (t = (index : ℚ) + nbs → pyInt (t - ((index : ℚ) - nbs)) = 2 * (nbs : ℤ)) := by
  have hsel := ht
  simp only [burstWindowSpikes, List.mem_filter, decide_eq_true_eq] at hsel
  obtain ⟨htmem, hlo, hhi⟩ := hsel
  have hd : (0 : ℚ) ≤ t - ((index : ℚ) - nbs) := by linarith
  have hfl : pyInt (t - ((index : ℚ) - nbs)) = ⌊t - ((index : ℚ) - nbs)⌋ :=
    pyInt_nonneg_eq_floor _ hd
  refine ⟨?_, ?_, ?_, ?_, ?_⟩
  · rw [hfl]; exact Int.floor_nonneg.mpr hd
  · exact List.mem_map_of_mem _ ht
  · rw [hfl]
    calc ⌊t - ((index : ℚ) - nbs)⌋ ≤ ⌊((2 * (nbs : ℤ) : ℤ) : ℚ)⌋ :=
          Int.floor_mono (by push_cast; linarith)
      _ = 2 * (nbs : ℤ) := Int.floor_intCast _
  · intro hstrict
    rw [hfl]
    rw [Int.floor_lt]
    push_cast
    linarith
  · intro heq
    rw [hfl, heq]
    rw [show ((index : ℚ) + nbs - ((index : ℚ) - nbs)) = ((2 * (nbs : ℤ) : ℤ) : ℚ) by
      push_cast; ring]
    exact Int.floor_intCast _

theorem c10_offsets_witness :
    pyInt ((1500 : ℚ) - (((1500 : ℕ) : ℚ) - ((1000 : ℕ) : ℚ))) ∈
      burstSpikeOffsets [1500] 1500 1000 := by
  have h1 : (1500 : ℚ) ∈ burstWindowSpikes [1500] 1500 1000 := by
    rw [burstWindowSpikes, List.mem_filter]
    refine ⟨List.mem_singleton_self _, ?_⟩
    rw [decide_eq_true_eq]
    constructor <;> push_cast <;> norm_num
  exact (c10_offsets [1500] 1500 1000 1500 h1).2.1

/-! ## Burst boundary walk (frame.py lines 289 to 321)

For each surviving burst the code slices
`waveform = population_firing_rate[index-num_burst_samples : index+num_burst_samples]`
(a window of 2 × num_burst_samples samples centred one short of the peak), sets
`window_thresh = burst_bound_thresh * height`, and walks outward:

  i = 1
  while (waveform[num_burst_samples-i] >= window_thresh) & (num_burst_samples-i > 0):
      window[0] -= 1
      i += 1
  i = 1
  while (waveform[num_burst_samples+i] >= window_thresh) & (num_burst_samples+i < len(waveform)-1):
      window[1] += 1
      i += 1

The loops are embedded fuel-recursively; `m` counts the passed steps, so the final
window is (-leftCount, rightCount).  Crucially, the Python variable `i` is the same
variable as the `enumerate` loop index, so after the second while loop the raster
write `burst_spike_array[i, elec_idx, ...]` (line 321) uses i = rightCount + 1, not
the burst counter. -/

/-- Burst bound threshold fraction, frame.py line 226: `burst_bound_thresh = 0.1`. -/
def burstBoundThresh : ℚ := 1/10

/-- Left outward walk of the burst-bound while loop: from step counter m (window[0]
is -m so far), with the Python loop condition
`waveform[nbs-i] >= thresh and nbs-i > 0` for i = m+1. -/
def walkL (w : List ℚ) (nbs : ℕ) (t : ℚ) : ℕ → ℕ → ℕ
  | 0, m => m
  | fuel+1, m =>
      if t ≤ w.getD (nbs - (m+1)) 0 ∧ m + 1 < nbs then walkL w nbs t fuel (m+1) else m

/-- Number of passed steps of the left walk; the recorded left offset is its
negation. -/
def leftCount (w : List ℚ) (nbs : ℕ) (t : ℚ) : ℕ := walkL w nbs t nbs 0

/-- Right outward walk, Python condition
`waveform[nbs+i] >= thresh and nbs+i < len(waveform)-1` for i = m+1. -/
def walkR (w : List ℚ) (nbs : ℕ) (t : ℚ) : ℕ → ℕ → ℕ
  | 0, m => m
  | fuel+1, m =>
      if t ≤ w.getD (nbs + (m+1)) 0 ∧ nbs + (m+1) + 1 < w.length then
        walkR w nbs t fuel (m+1)
      else m

/-- Number of passed steps of the right walk; the recorded right offset. -/
def rightCount (w : List ℚ) (nbs : ℕ) (t : ℚ) : ℕ := walkR w nbs t w.length 0

/-- The per-burst waveform slice
`population_firing_rate[index-num_burst_samples : index+num_burst_samples]`
(frame.py line 292); for surviving bursts nbs ≤ index ≤ len - nbs the slice has
exactly 2 × nbs samples. -/
def burstWaveform (rate : List ℚ) (index nbs : ℕ) : List ℚ :=
  (rate.drop (index - nbs)).take (2*nbs)

/-- The recorded burst boundary offsets (left, right) for one surviving burst. -/
def burstWindow (rate : List ℚ) (index nbs : ℕ) (height : ℚ) : ℤ × ℤ :=
  (-(leftCount (burstWaveform rate index nbs) nbs (burstBoundThresh * height) : ℤ),
    (rightCount (burstWaveform rate index nbs) nbs (burstBoundThresh * height) : ℤ))

/-- The raster row actually written for one burst (frame.py line 321): the loop
variable i was clobbered by the two while loops, so the row is the final value of
the right-walk counter plus one — not the enumerate burst counter. -/
def burstRasterRow (rate : List ℚ) (index nbs : ℕ) (height : ℚ) : ℕ :=
  rightCount (burstWaveform rate index nbs) nbs (burstBoundThresh * height) + 1

/-- The raster row written for each surviving burst, in burst order. -/
def burstRasterRows (rate : List ℚ) (bursts : List (ℕ × ℚ)) (nbs : ℕ) : List ℕ :=
  bursts.map (fun b => burstRasterRow rate b.1 nbs b.2)

/-- The boundary filter of frame.py line 282: only bursts with
num_burst_samples <= index <= len(rate) - num_burst_samples survive. -/
def survivingBursts (rate : List ℚ) (peaks : List (ℕ × ℚ)) (nbs : ℕ) : List (ℕ × ℚ) :=
  peaks.filter (fun p => nbs ≤ p.1 ∧ p.1 ≤ rate.length - nbs)

theorem walkL_le_start (w : List ℚ) (nbs : ℕ) (t : ℚ) :
    ∀ fuel m, m ≤ walkL w nbs t fuel m := by
  intro fuel
  induction fuel with
  | zero => intro m; simp [walkL]
  | succ fuel ih =>
      intro m
      rw [walkL]
      split_ifs with h
      · exact le_trans (Nat.le_succ m) (ih (m+1))
      · exact le_refl m

theorem walkL_le_bound (w : List ℚ) (nbs : ℕ) (t : ℚ) :
    ∀ fuel m, walkL w nbs t fuel m ≤ max m (nbs - 1) := by
  intro fuel
  induction fuel with
  | zero => intro m; simp [walkL]
  | succ fuel ih =>
      intro m
      rw [walkL]
      split_ifs with h
      · have := ih (m+1)
        omega
      · exact le_max_left m _

theorem walkL_passed (w : List ℚ) (nbs : ℕ) (t : ℚ) :
    ∀ fuel m, ∀ i, m < i → i ≤ walkL w nbs t fuel m → t ≤ w.getD (nbs - i) 0 := by
  intro fuel
  induction fuel with
  | zero =>
      intro m i hmi hir
      rw [walkL] at hir
      omega
  | succ fuel ih =>
      intro m i hmi hir
      rw [walkL] at hir
      split_ifs at hir with h
      · rcases Nat.lt_or_ge m.succ i with h2 | h2
        · exact ih (m+1) i h2 hir
        · have : i = m + 1 := by omega
          rw [this]
          exact h.1
      · omega

theorem walkL_stop (w : List ℚ) (nbs : ℕ) (t : ℚ) :
    ∀ fuel m, nbs ≤ m + fuel →
      ¬(t ≤ w.getD (nbs - (walkL w nbs t fuel m + 1)) 0 ∧ walkL w nbs t fuel m + 1 < nbs) := by
  intro fuel
  induction fuel with
  | zero =>
      intro m hle
      rw [walkL]
      omega
  | succ fuel ih =>
      intro m hle
      rw [walkL]
      split_ifs with h
      · exact ih (m+1) (by omega)
      · exact h

theorem walkR_le_start (w : List ℚ) (nbs : ℕ) (t : ℚ) :
    ∀ fuel m, m ≤ walkR w nbs t fuel m := by
  intro fuel
  induction fuel with
  | zero => intro m; simp [walkR]
  | succ fuel ih =>
      intro m
      rw [walkR]
      split_ifs with h
      · exact le_trans (Nat.le_succ m) (ih (m+1))
      · exact le_refl m

theorem walkR_le_bound (w : List ℚ) (nbs : ℕ) (t : ℚ) :
    ∀ fuel m, walkR w nbs t fuel m ≤ max m (w.length - nbs - 2) := by
  intro fuel
  induction fuel with
  | zero => intro m; simp [walkR]
  | succ fuel ih =>
      intro m
      rw [walkR]
      split_ifs with h
      · have := ih (m+1)
        omega
      · exact le_max_left m _

theorem walkR_passed (w : List ℚ) (nbs : ℕ) (t : ℚ) :
    ∀ fuel m, ∀ i, m < i → i ≤ walkR w nbs t fuel m → t ≤ w.getD (nbs + i) 0 := by
  intro fuel
  induction fuel with
  | zero =>
      intro m i hmi hir
      rw [walkR] at hir
      omega
  | succ fuel ih =>
      intro m i hmi hir
      rw [walkR] at hir
      split_ifs at hir with h
      · rcases Nat.lt_or_ge m.succ i with h2 | h2
        · exact ih (m+1) i h2 hir
        · have : i = m + 1 := by omega
          rw [this]
          exact h.1
      · omega

theorem walkR_stop (w : List ℚ) (nbs : ℕ) (t : ℚ) :
    ∀ fuel m, w.length ≤ nbs + m + 2 + fuel →
      ¬(t ≤ w.getD (nbs + (walkR w nbs t fuel m + 1)) 0 ∧
        nbs + (walkR w nbs t fuel m + 1) + 1 < w.length) := by
  intro fuel
  induction fuel with
  | zero =>
      intro m hle
      rw [walkR]
      omega
  | succ fuel ih =>
      intro m hle
      rw [walkR]
      split_ifs with h
      · exact ih (m+1) (by omega)
      · exact h

theorem getD_replicate (c : ℚ) : ∀ n j, j < n → (List.replicate n c).getD j 0 = c := by
  intro n
  induction n with
  | zero => intro j h; omega
  | succ n ih =>
      intro j h
      cases j with
      | zero => simp [List.replicate]
      | succ j =>
          rw [List.replicate]
          show (List.replicate n c).getD j 0 = c
          exact ih j (by omega)

theorem leftCount_replicate (c t : ℚ) (nbs : ℕ) (h : t ≤ c) (h1 : 1 ≤ nbs) :
    leftCount (List.replicate (2*nbs) c) nbs t = nbs - 1 := by
  have hub := walkL_le_bound (List.replicate (2*nbs) c) nbs t nbs 0
  have hstop := walkL_stop (List.replicate (2*nbs) c) nbs t nbs 0 (by omega)
  rw [leftCount]
  set r := walkL (List.replicate (2*nbs) c) nbs t nbs 0 with hr
  by_contra hne
  have hrlt : r + 1 < nbs := by omega
  exact hstop ⟨by rw [getD_replicate c (2*nbs) _ (by omega)]; exact h, hrlt⟩

theorem rightCount_replicate (c t : ℚ) (nbs : ℕ) (h : t ≤ c) (h2 : 2 ≤ nbs) :
    rightCount (List.replicate (2*nbs) c) nbs t = nbs - 2 := by
  have hlen : (List.replicate (2*nbs) c).length = 2*nbs := List.length_replicate _ _
  have hub := walkR_le_bound (List.replicate (2*nbs) c) nbs t (2*nbs) 0
  have hstop := walkR_stop (List.replicate (2*nbs) c) nbs t (2*nbs) 0 (by omega)
  rw [rightCount, hlen]
  rw [hlen] at hub hstop
  set r := walkR (List.replicate (2*nbs) c) nbs t (2*nbs) 0 with hr
  by_contra hne
  have hrlt : nbs + (r + 1) + 1 < 2*nbs := by omega
  exact hstop ⟨by rw [getD_replicate c (2*nbs) _ (by omega)]; exact h, hrlt⟩

theorem burstWaveform_const :
    burstWaveform (List.replicate 2000 (100:ℚ)) 1000 1000 =
      List.replicate 2000 (100:ℚ) := by
  rw [burstWaveform, Nat.sub_self, List.drop_zero, List.take_replicate]
  norm_num

theorem burstThresh_100 : burstBoundThresh * (100 : ℚ) = 10 := by
  norm_num [burstBoundThresh]

theorem leftCount_const2000 :
    leftCount (List.replicate 2000 (100:ℚ)) 1000 10 = 999 := by
  rw [show List.replicate 2000 (100:ℚ) = List.replicate (2*1000) (100:ℚ) from by norm_num]
  rw [leftCount_replicate 100 10 1000 (by norm_num) (by norm_num)]

theorem rightCount_const2000 :
    rightCount (List.replicate 2000 (100:ℚ)) 1000 10 = 998 := by
  rw [show List.replicate 2000 (100:ℚ) = List.replicate (2*1000) (100:ℚ) from by norm_num]
  rw [rightCount_replicate 100 10 1000 (by norm_num) (by norm_num)]

/-- C5: the claim states that when the threshold is never crossed the walk stops at
the edge of the fixed ±1 s window, recording offsets -1000 and +1000.  On a
smoothed rate that stays everywhere above threshold (constant 100 spk/s, peak at
index 1000, window threshold 10), the code stops one sample short of each edge and
records (-999, 998), not (-1000, 1000): the left loop halts once nbs - i reaches
index 0 without stepping onto it, and the right loop halts once nbs + i reaches the
second-to-last sample. -/
theorem c5_counterexample :
    burstWaveform (List.replicate 2000 (100:ℚ)) 1000 1000 = List.replicate 2000 (100:ℚ) ∧
    burstBoundThresh * 100 ≤ (100 : ℚ) ∧
    burstWindow (List.replicate 2000 (100:ℚ)) 1000 1000 100 = (-999, 998) ∧
    burstWindow (List.replicate 2000 (100:ℚ)) 1000 1000 100 ≠ (-1000, 1000) := by
  have hwin : burstWindow (List.replicate 2000 (100:ℚ)) 1000 1000 100 = (-999, 998) := by
    rw [burstWindow, burstWaveform_const, burstThresh_100, leftCount_const2000,
      rightCount_const2000]
    norm_num
  refine ⟨burstWaveform_const, ?_, hwin, ?_⟩
  · rw [burstThresh_100]
    norm_num
  · rw [hwin]
    decide

/-- C5 (amended): for every smoothed rate, surviving burst peak and height, the
recorded pair (left, right) = (-leftCount, rightCount) satisfies left ≤ 0 ≤ right;
every sample passed by either walk is ≥ burst_bound_thresh × height; each walk
stops exactly when the next sample drops below the threshold or when the next step
would leave the closed interior of the extraction window (left never reaching
offset -nbs, right never reaching offset nbs - 1, i.e. extreme offsets
-(nbs-1) and nbs-2, which for the fixed 1 s half-window are -999 and +998); and the
counts are bounded by those extremes. -/
theorem c5_burst_bounds (rate : List ℚ) (index nbs : ℕ) (height : ℚ) :
    burstWindow rate index nbs height =
      (-(leftCount (burstWaveform rate index nbs) nbs (burstBoundThresh * height) : ℤ),
        (rightCount (burstWaveform rate index nbs) nbs (burstBoundThresh * height) : ℤ)) ∧
    (burstWindow rate index nbs height).1 ≤ 0 ∧
    0 ≤ (burstWindow rate index nbs height).2 ∧
    (∀ i, 1 ≤ i → i ≤ leftCount (burstWaveform rate index nbs) nbs (burstBoundThresh * height) →
      burstBoundThresh * height ≤ (burstWaveform rate index nbs).getD (nbs - i) 0) ∧
    (∀ i, 1 ≤ i → i ≤ rightCount (burstWaveform rate index nbs) nbs (burstBoundThresh * height) →
      burstBoundThresh * height ≤ (burstWaveform rate index nbs).getD (nbs + i) 0) ∧
    ¬(burstBoundThresh * height ≤ (burstWaveform rate index nbs).getD
        (nbs - (leftCount (burstWaveform rate index nbs) nbs (burstBoundThresh * height) + 1)) 0 ∧
      leftCount (burstWaveform rate index nbs) nbs (burstBoundThresh * height) + 1 < nbs) ∧
    ¬(burstBoundThresh * height ≤ (burstWaveform rate index nbs).getD
        (nbs + (rightCount (burstWaveform rate index nbs) nbs (burstBoundThresh * height) + 1)) 0 ∧
      nbs + (rightCount (burstWaveform rate index nbs) nbs (burstBoundThresh * height) + 1) + 1 <
        (burstWaveform rate index nbs).length) ∧
    leftCount (burstWaveform rate index nbs) nbs (burstBoundThresh * height) ≤ nbs - 1 ∧
    rightCount (burstWaveform rate index nbs) nbs (burstBoundThresh * height) ≤
      (burstWaveform rate index nbs).length - nbs - 2 := by
  refine ⟨rfl, ?_, ?_, ?_, ?_, ?_, ?_, ?_, ?_⟩
  · show -(leftCount _ _ _ : ℤ) ≤ 0
    omega
  · show (0:ℤ) ≤ (rightCount _ _ _ : ℤ)
    omega
  · intro i h1 h2
    exact walkL_passed _ nbs _ nbs 0 i (by omega) h2
  · intro i h1 h2
    exact walkR_passed _ nbs _ (burstWaveform rate index nbs).length 0 i (by omega) h2
  · exact walkL_stop _ nbs _ nbs 0 (by omega)
  · exact walkR_stop _ nbs _ (burstWaveform rate index nbs).length 0 (by omega)
  · have h1 := walkL_le_bound (burstWaveform rate index nbs) nbs
      (burstBoundThresh * height) nbs 0
    have h2 : leftCount (burstWaveform rate index nbs) nbs (burstBoundThresh * height) =
        walkL (burstWaveform rate index nbs) nbs (burstBoundThresh * height) nbs 0 := rfl
    omega
  · have h1 := walkR_le_bound (burstWaveform rate index nbs) nbs (burstBoundThresh * height)
      (burstWaveform rate index nbs).length 0
    have h2 : rightCount (burstWaveform rate index nbs) nbs (burstBoundThresh * height) =
        walkR (burstWaveform rate index nbs) nbs (burstBoundThresh * height)
          (burstWaveform rate index nbs).length 0 := rfl
    omega

theorem c5_burst_bounds_witness :
    (burstWindow (List.replicate 2000 (100:ℚ)) 1000 1000 100).1 ≤ 0 ∧
    0 ≤ (burstWindow (List.replicate 2000 (100:ℚ)) 1000 1000 100).2 :=
  ⟨(c5_burst_bounds (List.replicate 2000 (100:ℚ)) 1000 1000 100).2.1,
    (c5_burst_bounds (List.replicate 2000 (100:ℚ)) 1000 1000 100).2.2.1⟩

/-- C1: the raster row written for a burst is the clobbered loop variable
i = rightCount + 1, never the enumerate burst counter.  Concrete failing frame: a
smoothed rate that is constant 100 spk/s with one surviving burst at index 1000 and
peak height 100.  The loop writes the single burst raster into row 999; the claim
(and the spec) require row 0, and with only one burst the 999 is also out of bounds
for axis 0 of the (1, num_electrodes, 2000) array, so numpy raises IndexError. -/
theorem c1_raster_row_bug :
    burstRasterRows (List.replicate 2000 (100:ℚ)) [(1000, 100)] 1000 = [999] ∧
    (999 : ℕ) ≠ 0 ∧
    ¬((999 : ℕ) < ([(1000, (100:ℚ))] : List (ℕ × ℚ)).length) := by
  refine ⟨?_, by norm_num, by norm_num⟩
  rw [burstRasterRows, List.map_cons, List.map_nil]
  show [burstRasterRow (List.replicate 2000 (100:ℚ)) 1000 1000 100] = [999]
  rw [burstRasterRow, burstWaveform_const, burstThresh_100, rightCount_const2000]

/-! ## C2: ActiveTimeFrames start/end extraction (frame.py line 155)

`start_time, end_time = np.unique(start_times[np.isin(start_times.astype("datetime64[m]"),
time_vector[frame_idx])])`.  `frame_idx` holds exactly the two positions
peak - min_per_frame and peak, so `time_vector[frame_idx]` is the two endpoint
minutes only — not the minutes in between; the isin filter keeps the observed
timestamps whose minute-truncation equals one of those two minutes; np.unique
sorts and deduplicates; and the tuple unpacking into two names raises ValueError
unless exactly two distinct values remain.  Timestamps are modelled as rational
seconds; minute truncation is the floor of t/60. -/

/-- Minute truncation astype datetime64[m] of a timestamp in seconds. -/
def minuteOf (t : ℚ) : ℤ := ⌊t / 60⌋

/-- np.unique: ascending sort followed by deduplication. -/
def uniqueSorted (l : List ℚ) : List ℚ := (l.insertionSort (· ≤ ·)).dedup

/-- The observed timestamps whose minute equals one of the two window-endpoint
minutes (the isin mask of frame.py line 155). -/
def endpointTimes (startTimes : List ℚ) (a b : ℤ) : List ℚ :=
  startTimes.filter (fun s => minuteOf s = a ∨ minuteOf s = b)

/-- frame.py line 155: np.unique of the masked timestamps unpacked into
(start_time, end_time); any count of distinct values other than two raises
ValueError, modelled as none. -/
def frameStartEnd (startTimes : List ℚ) (a b : ℤ) : Option (ℚ × ℚ) :=
  match uniqueSorted (endpointTimes startTimes a b) with
  | [s, e] => some (s, e)
  | _ => none

/-- Modelled from the spec (claim C2): the observed timestamps whose minute falls
anywhere inside the minute window [a, b]; the claim says start/end are the min and
max of this set. -/
def windowTimes (startTimes : List ℚ) (a b : ℤ) : List ℚ :=
  startTimes.filter (fun s => a ≤ minuteOf s ∧ minuteOf s ≤ b)

theorem mem_uniqueSorted (l : List ℚ) (x : ℚ) : x ∈ uniqueSorted l ↔ x ∈ l := by
  rw [uniqueSorted, List.mem_dedup]
  exact (List.perm_insertionSort _ l).mem_iff

theorem uniqueSorted_sorted (l : List ℚ) : (uniqueSorted l).Sorted (· ≤ ·) :=
  List.Pairwise.sublist (List.dedup_sublist _) (List.sorted_insertionSort _ l)

/-- C2: the claim states the emitted start/end are the min/max of the observed
timestamps with minute anywhere inside the window, for any number of distinct
observed timestamps.  Concrete refutation: observed timestamps 120 s, 180 s and
300 s (minutes 2, 3 and 5) against the window of minutes [0, 5]: three distinct
timestamps lie inside the window, but only 300 s sits at an endpoint minute, so
np.unique yields a single value and the two-name unpacking raises ValueError — no
frame is emitted at all, while the claim demands a frame with start 120 s and
end 300 s. -/
theorem c2_counterexample :
    frameStartEnd [120, 180, 300] 0 5 = none ∧
    (uniqueSorted (windowTimes [120, 180, 300] 0 5)).length = 3 := by
  have hm120 : minuteOf 120 = 2 := by rw [minuteOf]; norm_num
  have hm180 : minuteOf 180 = 3 := by rw [minuteOf]; norm_num
  have hm300 : minuteOf 300 = 5 := by rw [minuteOf]; norm_num
  have hsel : endpointTimes [120, 180, 300] 0 5 = [300] := by
    rw [endpointTimes]
    simp only [List.filter_cons, List.filter_nil, hm120, hm180, hm300]
    norm_num
  have hwin : windowTimes [120, 180, 300] 0 5 = [120, 180, 300] := by
    rw [windowTimes]
    simp only [List.filter_cons, List.filter_nil, hm120, hm180, hm300]
    norm_num
  constructor
  · show (match uniqueSorted (endpointTimes [120, 180, 300] 0 5) with
      | [s, e] => some (s, e)
      | _ => none) = none
    rw [hsel]
    rw [show uniqueSorted [300] = [300] from by
      rw [uniqueSorted]
      simp [List.insertionSort, List.orderedInsert]]
  · rw [hwin]
    rw [show uniqueSorted [120, 180, 300] = [120, 180, 300] from by
      rw [uniqueSorted]
      rw [show List.insertionSort (· ≤ ·) [(120:ℚ), 180, 300] = [120, 180, 300] from by
        simp [List.insertionSort, List.orderedInsert]
        norm_num]
      rw [List.dedup_cons_of_not_mem (by norm_num), List.dedup_cons_of_not_mem (by norm_num)]
      simp]
    rfl

/-- C2 (amended): a frame is emitted only when np.unique of the observed
timestamps at the two endpoint minutes has exactly two distinct values; in that
case start_time and end_time are respectively the minimum and maximum of the
observed timestamps whose minute equals one of the two endpoint minutes (not the
min/max over the whole minute range), with start_time < end_time. -/
theorem c2_frame_start_end (startTimes : List ℚ) (a b : ℤ) (s e : ℚ)
    (h : frameStartEnd startTimes a b = some (s, e)) :
    s ≤ e ∧ s ∈ startTimes ∧ e ∈ startTimes ∧
    (minuteOf s = a ∨ minuteOf s = b) ∧ (minuteOf e = a ∨ minuteOf e = b) ∧
    (∀ x ∈ startTimes, (minuteOf x = a ∨ minuteOf x = b) → s ≤ x ∧ x ≤ e) := by
  have hmatch : uniqueSorted (endpointTimes startTimes a b) = [s, e] := by
    revert h
    show (match uniqueSorted (endpointTimes startTimes a b) with
      | [s, e] => some (s, e)
      | _ => none) = some (s, e) → _
    cases hu : uniqueSorted (endpointTimes startTimes a b) with
    | nil => intro h; exact absurd h (by simp)
    | cons x l =>
        cases l with
        | nil => intro h; exact absurd h (by simp)
        | cons y l2 =>
            cases l2 with
            | nil =>
                intro h
                simp only [Option.some.injEq, Prod.mk.injEq] at h
                rw [h.1, h.2]
            | cons z l3 => intro h; exact absurd h (by simp)
  have hmem : ∀ x : ℚ, x ∈ endpointTimes startTimes a b ↔ (x = s ∨ x = e) := by
    intro x
    rw [← mem_uniqueSorted, hmatch]
    simp
  have hsorted := uniqueSorted_sorted (endpointTimes startTimes a b)
  rw [hmatch] at hsorted
  have hse : s ≤ e := by
    rcases hsorted with _ | ⟨hrel, _⟩
    exact hrel e (by simp)
  have hs_sel : s ∈ endpointTimes startTimes a b := (hmem s).mpr (Or.inl rfl)
  have he_sel : e ∈ endpointTimes startTimes a b := (hmem e).mpr (Or.inr rfl)
  have hs_parts := hs_sel
  have he_parts := he_sel
  rw [endpointTimes, List.mem_filter, decide_eq_true_eq] at hs_parts he_parts
  refine ⟨hse, hs_parts.1, he_parts.1, hs_parts.2, he_parts.2, ?_⟩
  intro x hx hxm
  have hx_sel : x ∈ endpointTimes startTimes a b := by
    rw [endpointTimes, List.mem_filter, decide_eq_true_eq]
    exact ⟨hx, hxm⟩
  rcases (hmem x).mp hx_sel with h | h
  · rw [h]; exact ⟨le_refl s, hse⟩
  · rw [h]; exact ⟨hse, le_refl e⟩

theorem c2_frame_start_end_witness :
    (10 : ℚ) ≤ 70 ∧ (10 : ℚ) ∈ [(10 : ℚ), 70] ∧ (70 : ℚ) ∈ [(10 : ℚ), 70] ∧
    (minuteOf 10 = 0 ∨ minuteOf 10 = 1) ∧ (minuteOf 70 = 0 ∨ minuteOf 70 = 1) ∧
    (∀ x ∈ [(10 : ℚ), 70], (minuteOf x = 0 ∨ minuteOf x = 1) → 10 ≤ x ∧ x ≤ 70) := by
  have hm10 : minuteOf 10 = 0 := by rw [minuteOf]; norm_num
  have hm70 : minuteOf 70 = 1 := by rw [minuteOf]; norm_num
  have hsel : endpointTimes [10, 70] 0 1 = [10, 70] := by
    rw [endpointTimes]
    simp only [List.filter_cons, List.filter_nil, hm10, hm70]
    norm_num
  have h : frameStartEnd [10, 70] 0 1 = some (10, 70) := by
    show (match uniqueSorted (endpointTimes [10, 70] 0 1) with
      | [s, e] => some (s, e)
      | _ => none) = some (10, 70)
    rw [hsel]
    rw [show uniqueSorted [10, 70] = [10, 70] from by
      rw [uniqueSorted]
      rw [show List.insertionSort (· ≤ ·) [(10:ℚ), 70] = [10, 70] from by
        simp [List.insertionSort, List.orderedInsert]
        norm_num]
      rw [List.dedup_cons_of_not_mem (by norm_num)]
      simp]
  exact c2_frame_start_end [10, 70] 0 1 10 70 h

/-! ## C4: band power over an empty frequency selection (analysis.py lines 105 to 116)

`freq_mask = np.logical_and(frequency >= fl, frequency < fh)` followed by
`power = Sxx[freq_mask, :].mean(axis=0)`.  When the mask selects no rows numpy
takes the mean over an empty axis: it emits a RuntimeWarning and fills power (and
hence mean_power and std_power) with NaN — no exception is raised.  The NaN
outcome is modelled as none. -/

/-- The one-sided spectrogram frequency vector: f_k = k × fs / nperseg for
k = 0 .. nperseg/2 (the rfft frequencies of scipy.signal.spectrogram at
analysis.py line 91). -/
def rfftFreqs (fs : ℤ) (nperseg : ℕ) : List ℚ :=
  (List.range (nperseg / 2 + 1)).map (fun (k : ℕ) => (k : ℚ) * (fs : ℚ) / (nperseg : ℚ))

/-- The frequency bins selected for a band: analysis.py line 106. -/
def bandBins (freqs : List ℚ) (lo hi : ℚ) : List ℚ :=
  freqs.filter (fun f => lo ≤ f ∧ f < hi)

/-- The spectrogram rows selected by the band mask. -/
def selectedRows (freqs : List ℚ) (Sxx : List (List ℝ)) (lo hi : ℚ) : List (List ℝ) :=
  ((freqs.zip Sxx).filter (fun p => lo ≤ p.1 ∧ p.1 < hi)).map Prod.snd

/-- analysis.py line 107: the per-time-bin mean across the selected rows; an empty
selection produces NaN values (modelled none), not an exception. -/
noncomputable def channelPowerSeries (freqs : List ℚ) (Sxx : List (List ℝ))
    (lo hi : ℚ) (ntime : ℕ) : Option (List ℝ) :=
  if selectedRows freqs Sxx lo hi = [] then none
  else some ((List.range ntime).map (fun j =>
    ((selectedRows freqs Sxx lo hi).map (fun row => row.getD j 0)).sum /
      ((selectedRows freqs Sxx lo hi).length : ℝ)))

theorem selectedRows_eq_nil (freqs : List ℚ) (Sxx : List (List ℝ)) (lo hi : ℚ)
    (h : bandBins freqs lo hi = []) : selectedRows freqs Sxx lo hi = [] := by
  rw [selectedRows, List.map_eq_nil_iff, List.filter_eq_nil_iff]
  rintro ⟨f, row⟩ hmem
  have hf : f ∈ freqs := (List.of_mem_zip hmem).1
  rw [bandBins, List.filter_eq_nil_iff] at h
  have := h f hf
  simpa using this

/-- C4: the claim states the band-power extraction raises an explicit
precision-loss error when a band contains no spectrogram frequency bins.  The code
does not: it lets numpy average an empty row selection, which yields NaN (with
only a RuntimeWarning).  Failing configuration: sampling rate 2500 Hz and
window_size 0.1 s, so nperseg = int(0.1 × 2500) = 250 and the frequency grid is
multiples of 10 Hz; the theta band [4, 7) then selects no bin, and the stored
power series / mean / std are NaN (modelled none), not an error. -/
theorem c4_empty_band_nan :
    npersegCode (1/10) 2500 = 250 ∧
    bandBins (rfftFreqs 2500 250) 4 7 = [] ∧
    (∀ (Sxx : List (List ℝ)) (ntime : ℕ),
      channelPowerSeries (rfftFreqs 2500 250) Sxx 4 7 ntime = none) := by
  have hbins : bandBins (rfftFreqs 2500 250) 4 7 = [] := by
    rw [bandBins, List.filter_eq_nil_iff]
    intro f hf
    rw [decide_eq_true_eq]
    rintro ⟨h4, h7⟩
    rw [rfftFreqs, List.mem_map] at hf
    obtain ⟨a, ha, hfa⟩ := hf
    rw [← hfa] at h4 h7
    have hk10 : ((a : ℚ) * ((2500 : ℤ) : ℚ) / ((250 : ℕ) : ℚ)) = 10 * (a : ℚ) := by
      push_cast
      ring
    rw [hk10] at h4 h7
    rcases Nat.eq_zero_or_pos a with hk0 | hk1
    · rw [hk0] at h4; norm_num at h4
    · have h1a : (1 : ℚ) ≤ (a : ℚ) := by exact_mod_cast hk1
      nlinarith
  refine ⟨?_, hbins, ?_⟩
  · rw [npersegCode, show ((1:ℚ)/10 * 2500) = 250 by norm_num, pyInt,
      if_pos (by norm_num)]
    rw [show ((250:ℚ)) = ((250:ℤ):ℚ) by norm_num]
    exact Int.floor_intCast _
  · intro Sxx ntime
    rw [channelPowerSeries, if_pos (selectedRows_eq_nil _ _ _ _ hbins)]

/-! ## C8: probe/port metadata lookup in ActiveTimeFrames.make
(frame.py lines 158 to 174)

The block runs once per selected frame, before any row insert:

  port_id, probe = set((ephys.EphysSessionProbe & key).fetch("port_id", "probe"))
  if not (ephys.EphysSessionProbe & key): raise ValueError(...)
  if len(ephys.EphysSessionProbe & key) > 1: raise ValueError(...)

`fetch("port_id", "probe")` returns a pair of numpy arrays; building a Python set
over that pair hashes each array, and numpy arrays are unhashable, so the first
line raises TypeError whenever it executes — in particular it raises (before the
two explicit ValueError guards are reached) when no record exists and when more
than one record (hence any ambiguous port id) exists.  Each raise aborts the key
before self.insert1, so no ActiveTimeFrame rows are produced. -/

/-- Python `set((port_id_array, probe_array))`: hashing a numpy array raises
TypeError, whatever the fetched contents are. -/
def probePortSetCall (portIds probes : List ℕ) : Except String (List ℕ × List ℕ) :=
  Except.error "TypeError: unhashable type: numpy.ndarray"

/-- The probe/port metadata block of ActiveTimeFrames.make, line by line. -/
def activeFrameProbeLookup (records : List (ℕ × ℕ)) : Except String (ℕ × ℕ) := do
  let _ ← probePortSetCall (records.map Prod.fst) (records.map Prod.snd)
  if records.length = 0 then
    Except.error "ValueError: No EphysSessionProbe found - cannot determine the port ID"
  else if 1 < records.length then
    Except.error "ValueError: Multiple Port IDs found - cannot determine the port ID"
  else
    match records with
    | (p, pr) :: _ => Except.ok (p, pr)
    | [] => Except.error "ValueError: No EphysSessionProbe found - cannot determine the port ID"

/-- The ActiveTimeFrame rows emitted for a key: the probe lookup runs inside the
per-frame loop before the first insert, so an error there aborts the key with no
rows. -/
def activeFrameRowsEmitted (records : List (ℕ × ℕ)) (frames : List (ℚ × ℚ)) :
    List (ℚ × ℚ) :=
  match activeFrameProbeLookup records with
  | Except.ok _ => frames
  | Except.error _ => []

/-- C8: when no probe/port metadata record exists for the key, or when more than
one distinct port id is found for the experiment, ActiveTimeFrames.make raises an
unrecoverable error and emits no rows for the key.  (In the source as written the
error actually raised in both situations is the TypeError from hashing the fetched
numpy arrays in the set() call on line 160, which fires before the two explicit
ValueError guards; either way the key aborts and produces nothing.) -/
theorem c8_probe_lookup_errors (records : List (ℕ × ℕ)) (frames : List (ℚ × ℚ))
    (h : records.length = 0 ∨ 1 < ((records.map Prod.fst).dedup).length) :
    (∃ msg, activeFrameProbeLookup records = Except.error msg) ∧
    activeFrameRowsEmitted records frames = [] := by
  refine ⟨⟨"TypeError: unhashable type: numpy.ndarray", rfl⟩, rfl⟩

theorem c8_probe_lookup_errors_witness :
    (∃ msg, activeFrameProbeLookup [] = Except.error msg) ∧
    activeFrameRowsEmitted [] [(0, 60)] = [] :=
  c8_probe_lookup_errors [] [(0, 60)] (Or.inl rfl)

/-! ## C3: active-frame peak selection (frame.py lines 137 to 149)

`find_peaks(population_firing_vector, height=0, distance=min_per_frame)` is
scipy's peak detector: local maxima (with plateau midpoints), then the height
filter, then the minimum-distance filter that repeatedly keeps the
highest-priority remaining peak and discards neighbours closer than the distance.
Afterwards the code drops boundary peaks with `min_per_frame <= frame_indices`,
ranks by `np.argsort(frame_amplitudes)[-num_frames:]` and maps each selected peak
to the window `[-min_per_frame, 0] + frame_indices[peak_idx]`.

Notes on the embedding of the scipy internals:
- `_local_maxima_1d` is reproduced loop for loop (fuel recursion on the cursor).
- `_select_by_peak_distance` scans left and right neighbours of each processed
  peak while they are strictly closer than the distance; because the peak indices
  from `_local_maxima_1d` are strictly increasing, that scan discards exactly the
  peaks whose absolute distance to the processed peak is below the distance,
  which is how it is written here.
- np.argsort is modelled as a stable sort (ties by original position); the
  theorems below do not depend on the tie order. -/

/-- Lexicographic comparison used to model np.argsort on an amplitude list:
position a precedes position b when its amplitude is smaller, with ties broken by
original position (stable order). -/
def ampLe (l : List ℚ) (a b : ℕ) : Prop :=
  l.getD a 0 < l.getD b 0 ∨ (l.getD a 0 = l.getD b 0 ∧ a ≤ b)

instance ampLeDecidable (l : List ℚ) : DecidableRel (ampLe l) := fun a b => by
  unfold ampLe
  infer_instance

instance ampLeTotal (l : List ℚ) : IsTotal ℕ (ampLe l) := by
  constructor
  intro a b
  rcases lt_trichotomy (l.getD a 0) (l.getD b 0) with h | h | h
  · exact Or.inl (Or.inl h)
  · rcases Nat.le_total a b with hab | hba
    · exact Or.inl (Or.inr ⟨h, hab⟩)
    · exact Or.inr (Or.inr ⟨h.symm, hba⟩)
  · exact Or.inr (Or.inl h)

instance ampLeTrans (l : List ℚ) : IsTrans ℕ (ampLe l) := by
  constructor
  intro a b c hab hbc
  rcases hab with hab | ⟨hab, hab2⟩
  · rcases hbc with hbc | ⟨hbc, _⟩
    · exact Or.inl (lt_trans hab hbc)
    · exact Or.inl (hbc ▸ hab)
  · rcases hbc with hbc | ⟨hbc, hbc2⟩
    · exact Or.inl (hab ▸ hbc)
    · exact Or.inr ⟨hab.trans hbc, hab2.trans hbc2⟩

/-- np.argsort modelled as a stable ascending sort of the positions by amplitude. -/
def argsortQ (l : List ℚ) : List ℕ := (List.range l.length).insertionSort (ampLe l)

/-- Plateau scan of scipy _local_maxima_1d: advance i_ahead while
i_ahead < i_max and x[i_ahead] == x[i]. -/
def plateauEnd (x : List ℚ) (imax : ℕ) (v : ℚ) : ℕ → ℕ → ℕ
  | 0, j => j
  | fuel+1, j => if j < imax ∧ x.getD j 0 = v then plateauEnd x imax v fuel (j+1) else j

/-- Outer loop of scipy _local_maxima_1d: cursor i runs from 1 while i < i_max
(= len - 1); a strictly rising edge followed by a strictly falling edge after an
optional plateau records the plateau midpoint and jumps the cursor past the
plateau. -/
def localMaximaAux (x : List ℚ) (imax : ℕ) : ℕ → ℕ → List ℕ
  | 0, _ => []
  | fuel+1, i =>
      if i < imax then
        if x.getD (i-1) 0 < x.getD i 0 then
          if x.getD (plateauEnd x imax (x.getD i 0) x.length (i+1)) 0 < x.getD i 0 then
            ((i + (plateauEnd x imax (x.getD i 0) x.length (i+1) - 1)) / 2) ::
              localMaximaAux x imax fuel (plateauEnd x imax (x.getD i 0) x.length (i+1) + 1)
          else localMaximaAux x imax fuel (i + 1)
        else localMaximaAux x imax fuel (i + 1)
      else []

/-- Local maxima (plateau midpoints) of a vector, as scipy _local_maxima_1d. -/
def localMaxima (x : List ℚ) : List ℕ := localMaximaAux x (x.length - 1) x.length 1

/-- find_peaks height filter: keep peaks whose sample value is at least hmin. -/
def heightSelect (x : List ℚ) (hmin : ℚ) (peaks : List ℕ) : List ℕ :=
  peaks.filter (fun p => hmin ≤ x.getD p 0)

/-- One step of scipy _select_by_peak_distance: if the processed peak j is still
kept, discard every other peak strictly closer than the distance. -/
def sbpdMark (peaks : List ℕ) (d : ℕ) (keep : List Bool) (j : ℕ) : List Bool :=
  if keep.getD j false then
    (List.range keep.length).foldl (fun kp k =>
      if k ≠ j ∧ ((peaks.getD j 0 : ℤ) - (peaks.getD k 0 : ℤ)).natAbs < d then
        kp.set k false
      else kp) keep
  else keep

/-- scipy _select_by_peak_distance: process peaks from highest to lowest priority
(reversed argsort order). -/
def selectByPeakDistance (peaks : List ℕ) (priority : List ℚ) (d : ℕ) : List Bool :=
  (argsortQ priority).reverse.foldl (sbpdMark peaks d) (List.replicate peaks.length true)

/-- scipy find_peaks with height and distance arguments, as called at
frame.py line 137. -/
def findPeaks (x : List ℚ) (hmin : ℚ) (d : ℕ) : List ℕ :=
  (((heightSelect x hmin (localMaxima x)).zip
      (selectByPeakDistance (heightSelect x hmin (localMaxima x))
        ((heightSelect x hmin (localMaxima x)).map (fun p => x.getD p 0)) d)).filterMap
    (fun pk => if pk.2 then some pk.1 else none))

/-- The peaks surviving the boundary filter of frame.py line 141:
`min_per_frame <= frame_indices`. -/
def atfSurvivors (pfv : List ℚ) (m : ℕ) : List ℕ :=
  (findPeaks pfv 0 m).filter (fun p => m ≤ p)

/-- The amplitudes (peak heights) of the surviving peaks. -/
def atfAmps (pfv : List ℚ) (m : ℕ) : List ℚ :=
  (atfSurvivors pfv m).map (fun p => pfv.getD p 0)

/-- frame.py line 148: `peak_indices = np.argsort(frame_amplitudes)[-num_frames:]`.
A Python slice [-k:] with k > 0 keeps the last k entries (all of them when k
exceeds the length); [-0:] would keep the whole list. -/
def atfSelectedPositions (amps : List ℚ) (k : ℕ) : List ℕ :=
  if k = 0 then argsortQ amps else (argsortQ amps).drop (amps.length - k)

/-- frame.py line 149: each selected peak maps to the minute window
`[peak - min_per_frame, peak]`. -/
def atfWindows (pfv : List ℚ) (m k : ℕ) : List (ℕ × ℕ) :=
  (atfSelectedPositions (atfAmps pfv m) k).map
    (fun q => ((atfSurvivors pfv m).getD q 0 - m, (atfSurvivors pfv m).getD q 0))

theorem argsortQ_perm (l : List ℚ) : (argsortQ l).Perm (List.range l.length) :=
  List.perm_insertionSort _ _

theorem argsortQ_length (l : List ℚ) : (argsortQ l).length = l.length := by
  rw [(argsortQ_perm l).length_eq, List.length_range]

theorem argsortQ_sorted (l : List ℚ) : List.Sorted (ampLe l) (argsortQ l) :=
  List.sorted_insertionSort _ _

theorem map_getD_range {α β : Type} (l : List α) (d : α) (f : α → β) :
    (List.range l.length).map (fun i => f (l.getD i d)) = l.map f := by
  induction l with
  | nil => rfl
  | cons a t ih =>
      rw [List.length_cons, List.range_succ_eq_map]
      simp only [List.map_cons, List.map_map]
      rw [show ((fun i => f ((a :: t).getD i d)) ∘ Nat.succ) = (fun i => f (t.getD i d))
        from funext (fun i => rfl)]
      rw [ih]
      rfl

/-- C3: after find_peaks, the selector drops exactly the peaks with index below
frame_length; the positions then selected are min(num_frames, survivor count) in
number, distinct, valid, and amplitude-dominant over every unselected survivor;
and when the survivors number at most num_frames the emitted windows are exactly
the windows [p - frame_length, p] of all the survivors.  num_frames is positive in
every configured parameter set. -/
theorem c3_top_k_selection (pfv : List ℚ) (m k : ℕ) (hk : 1 ≤ k) :
    (∀ p, p ∈ atfSurvivors pfv m ↔ (p ∈ findPeaks pfv 0 m ∧ m ≤ p)) ∧
    (atfSelectedPositions (atfAmps pfv m) k).length = min k (atfSurvivors pfv m).length ∧
    (atfSelectedPositions (atfAmps pfv m) k).Nodup ∧
    (∀ q ∈ atfSelectedPositions (atfAmps pfv m) k, q < (atfSurvivors pfv m).length) ∧
    (∀ q ∈ atfSelectedPositions (atfAmps pfv m) k,
      ∀ r < (atfSurvivors pfv m).length, r ∉ atfSelectedPositions (atfAmps pfv m) k →
        (atfAmps pfv m).getD r 0 ≤ (atfAmps pfv m).getD q 0) ∧
    ((atfSurvivors pfv m).length ≤ k →
      (atfWindows pfv m k).Perm ((atfSurvivors pfv m).map (fun p => (p - m, p)))) := by
  have hamps_len : (atfAmps pfv m).length = (atfSurvivors pfv m).length := by
    rw [atfAmps, List.length_map]
  have hsel : atfSelectedPositions (atfAmps pfv m) k =
      (argsortQ (atfAmps pfv m)).drop ((atfAmps pfv m).length - k) := by
    rw [atfSelectedPositions, if_neg (by omega)]
  have hsplit := List.take_append_drop ((atfAmps pfv m).length - k) (argsortQ (atfAmps pfv m))
  have hpair := argsortQ_sorted (atfAmps pfv m)
  rw [List.Sorted, ← hsplit, List.pairwise_append] at hpair
  refine ⟨?_, ?_, ?_, ?_, ?_, ?_⟩
  · intro p
    rw [atfSurvivors, List.mem_filter, decide_eq_true_eq]
  · rw [hsel, List.length_drop, argsortQ_length, hamps_len]
    omega
  · rw [hsel]
    exact ((argsortQ_perm (atfAmps pfv m)).nodup_iff.mpr (List.nodup_range _)).sublist
      (List.drop_sublist _ _)
  · intro q hq
    rw [hsel] at hq
    have : q ∈ argsortQ (atfAmps pfv m) := (List.drop_sublist _ _).mem hq
    rw [(argsortQ_perm _).mem_iff, List.mem_range, hamps_len] at this
    exact this
  · intro q hq r hr hrnot
    rw [hsel] at hq hrnot
    have hrmem : r ∈ argsortQ (atfAmps pfv m) := by
      rw [(argsortQ_perm _).mem_iff, List.mem_range, hamps_len]
      exact hr
    have hrtake : r ∈ (argsortQ (atfAmps pfv m)).take ((atfAmps pfv m).length - k) := by
      rw [← hsplit, List.mem_append] at hrmem
      rcases hrmem with h | h
      · exact h
      · exact absurd h hrnot
    have := hpair.2.2 r hrtake q hq
    rcases this with h | ⟨h, _⟩
    · exact le_of_lt h
    · exact le_of_eq h
  · intro hle
    have hdrop0 : (atfAmps pfv m).length - k = 0 := by omega
    rw [atfWindows, hsel, hdrop0, List.drop_zero]
    have hperm : (argsortQ (atfAmps pfv m)).Perm (List.range (atfSurvivors pfv m).length) := by
      rw [← hamps_len]
      exact argsortQ_perm _
    refine (hperm.map _).trans ?_
    rw [map_getD_range (atfSurvivors pfv m) 0 (fun p => (p - m, p))]

theorem c3_top_k_selection_witness :
    (atfWindows [0, 5, 0, 7, 0] 1 2).Perm
      ((atfSurvivors [0, 5, 0, 7, 0] 1).map (fun p => (p - 1, p))) :=
  (c3_top_k_selection [0, 5, 0, 7, 0] 1 2 (by decide)).2.2.2.2.2 (by decide)

/-! ## C9: spectrogram shape and time axis (analysis.py lines 91 to 101)

`signal.spectrogram(lfp, fs=int(rate), nperseg=int(window_size*rate),
noverlap=int(overlap_size*rate), window="boxcar")` with scipy defaults
(detrend constant, one-sided, density scaling, psd mode):
- nperseg must be a positive integer (else ValueError) and is clamped to the
  trace length (with a warning) when larger;
- noverlap must be strictly less than the (clamped) nperseg (else ValueError);
- the signal is cut into segments of nperseg samples every step = nperseg -
  noverlap samples, (len - noverlap) / step segments in total;
- each segment is detrended (mean removed), multiplied by the boxcar window
  (all ones), Fourier transformed, and the squared magnitudes are scaled by
  1/(fs·nperseg) with one-sided doubling;
- frequency k·fs/nperseg for k = 0..nperseg/2, time (nperseg/2 + j·step)/fs.
Sample values live in ℝ; the DFT is written with exact cosines and sines, so the
power entries are the mathematical values the float code approximates.  The shape
and time-monotonicity claim depends only on the segmentation. -/

/-- The output of the Spectrogram Engine for one trace: a frequency vector, a time
vector and the power matrix indexed (frequency bin, time bin). -/
structure SpectrogramResult where
  frequency : List ℚ
  time : List ℚ
  power : List (List ℝ)

/-- Mean of a segment (scipy detrend constant subtracts it). -/
noncomputable def segMean (seg : List ℝ) : ℝ := seg.sum / (seg.length : ℝ)

/-- A segment with its constant trend removed. -/
noncomputable def detrended (seg : List ℝ) : List ℝ := seg.map (fun v => v - segMean seg)

/-- Real part of DFT bin k of a segment over nper points. -/
noncomputable def dftRe (seg : List ℝ) (nper k : ℕ) : ℝ :=
  ((List.range seg.length).map
    (fun j => seg.getD j 0 * Real.cos (2 * Real.pi * k * j / nper))).sum

/-- Imaginary part (negated sine convention) of DFT bin k of a segment. -/
noncomputable def dftIm (seg : List ℝ) (nper k : ℕ) : ℝ :=
  ((List.range seg.length).map
    (fun j => seg.getD j 0 * Real.sin (2 * Real.pi * k * j / nper))).sum

/-- One-sided PSD value for bin k of one segment: squared DFT magnitude of the
detrended segment, density-scaled by 1/(fs·nperseg) (boxcar window), doubled for
all bins except DC and, for even nperseg, Nyquist. -/
noncomputable def psdBin (seg : List ℝ) (nper k : ℕ) (fs : ℚ) : ℝ :=
  (if k = 0 ∨ (nper % 2 = 0 ∧ k = nper / 2) then 1 else 2) *
    ((dftRe (detrended seg) nper k)^2 + (dftIm (detrended seg) nper k)^2) /
      ((fs : ℝ) * (nper : ℝ))

/-- The overlapping segments of the trace. -/
def specSegments (x : List ℝ) (nper step nseg : ℕ) : List (List ℝ) :=
  (List.range nseg).map (fun j => (x.drop (j*step)).take nper)

/-- The spectrogram of a trace for already-validated nperseg and noverlap. -/
noncomputable def spectrogramRes (x : List ℝ) (fs : ℚ) (nper nov : ℕ) :
    SpectrogramResult :=
  { frequency := (List.range (nper / 2 + 1)).map (fun (k : ℕ) => (k : ℚ) * fs / (nper : ℚ))
  , time := (List.range ((x.length - nov) / (nper - nov))).map
      (fun j => ((nper : ℚ) / 2 + ((j * (nper - nov) : ℕ) : ℚ)) / fs)
  , power := (List.range (nper / 2 + 1)).map (fun k =>
      (specSegments x nper (nper - nov) ((x.length - nov) / (nper - nov))).map
        (fun seg => psdBin seg nper k fs)) }

/-- scipy.signal.spectrogram input validation followed by the computation. -/
noncomputable def spectrogram (x : List ℝ) (fs : ℚ) (nper nov : ℕ) :
    Except String SpectrogramResult :=
  if 1 ≤ nper then
    if nov < min nper x.length then
      Except.ok (spectrogramRes x fs (min nper x.length) nov)
    else Except.error "ValueError: noverlap must be less than nperseg."
  else Except.error "ValueError: nperseg must be a positive integer"

/-- LFPSpectrogram.make: the parameters the repository passes to
scipy.signal.spectrogram (analysis.py lines 91 to 97). -/
noncomputable def lfpSpectrogram (lfp : List ℝ) (rate windowSize overlapSize : ℚ) :
    Except String SpectrogramResult :=
  spectrogram lfp ((pyInt rate : ℤ) : ℚ)
    (npersegCode windowSize rate).toNat (noverlapCode overlapSize rate).toNat

theorem spectrogramRes_shape (x : List ℝ) (fs : ℚ) (nper nov : ℕ) (hfs : 0 < fs) :
    (spectrogramRes x fs nper nov).power.length =
      (spectrogramRes x fs nper nov).frequency.length ∧
    (∀ row ∈ (spectrogramRes x fs nper nov).power,
      row.length = (spectrogramRes x fs nper nov).time.length) ∧
    (spectrogramRes x fs nper nov).time.Pairwise (· ≤ ·) := by
  refine ⟨?_, ?_, ?_⟩
  · simp only [spectrogramRes, List.length_map]
  · intro row hrow
    simp only [spectrogramRes, List.mem_map] at hrow
    obtain ⟨k, _, rfl⟩ := hrow
    simp only [spectrogramRes, List.length_map, specSegments, List.length_range]
  · rw [spectrogramRes]
    simp only
    rw [List.pairwise_map]
    apply List.Pairwise.imp ?_ (List.pairwise_lt_range _)
    intro i j hij
    have hmul : (i * (nper - nov) : ℕ) ≤ (j * (nper - nov) : ℕ) :=
      Nat.mul_le_mul_right _ (le_of_lt hij)
    have hnum : ((nper : ℚ) / 2 + ((i * (nper - nov) : ℕ) : ℚ)) ≤
        ((nper : ℚ) / 2 + ((j * (nper - nov) : ℕ) : ℚ)) := by
      apply add_le_add_left
      exact_mod_cast hmul
    exact (div_le_div_iff_of_pos_right hfs).mpr hnum

/-- C9: whenever LFPSpectrogram.make produces a SpectrogramResult (scipy does not
raise on the supplied parameters), the power matrix has exactly
(len(frequency), len(time)) shape and the time vector is monotonically
non-decreasing.  The sampling rate is positive (it is a physical sampling rate;
int(lfp_sampling_rate) ≥ 1 for every recorded trace). -/
theorem c9_spectrogram_shape (lfp : List ℝ) (rate ws os : ℚ) (r : SpectrogramResult)
    (hfs : 0 < pyInt rate)
    (h : lfpSpectrogram lfp rate ws os = Except.ok r) :
    r.power.length = r.frequency.length ∧
    (∀ row ∈ r.power, row.length = r.time.length) ∧
    r.time.Pairwise (· ≤ ·) := by
  rw [lfpSpectrogram, spectrogram] at h
  by_cases h1 : 1 ≤ (npersegCode ws rate).toNat
  · rw [if_pos h1] at h
    by_cases h2 : (noverlapCode os rate).toNat < min (npersegCode ws rate).toNat lfp.length
    · rw [if_pos h2] at h
      have hr :
          spectrogramRes lfp ((pyInt rate : ℤ) : ℚ)
            (min (npersegCode ws rate).toNat lfp.length) (noverlapCode os rate).toNat = r := by
        injection h
      rw [← hr]
      exact spectrogramRes_shape _ _ _ _ (by exact_mod_cast hfs)
    · rw [if_neg h2] at h
      exact absurd h (by simp)
  · rw [if_neg h1] at h
    exact absurd h (by simp)

theorem c9_spectrogram_shape_witness :
    (spectrogramRes [(0:ℝ), 0, 0, 0] ((2:ℤ) : ℚ) 2 0).power.length =
      (spectrogramRes [(0:ℝ), 0, 0, 0] ((2:ℤ) : ℚ) 2 0).frequency.length := by
  have hpy : pyInt 2 = 2 := by
    rw [pyInt, if_pos (by norm_num)]
    norm_num
  have hper : npersegCode 1 2 = 2 := by
    rw [npersegCode, one_mul, hpy]
  have hov : noverlapCode 0 2 = 0 := by
    rw [noverlapCode, zero_mul, pyInt, if_pos (by norm_num)]
    norm_num
  have hlen : (List.length [(0:ℝ), 0, 0, 0]) = 4 := by
    simp
  have h : lfpSpectrogram [(0:ℝ), 0, 0, 0] 2 1 0 =
      Except.ok (spectrogramRes [(0:ℝ), 0, 0, 0] ((2:ℤ) : ℚ) 2 0) := by
    rw [lfpSpectrogram, hper, hov, hpy, spectrogram, hlen]
    rw [show ((2:ℤ).toNat) = 2 from rfl, show ((0:ℤ).toNat) = 0 from rfl]
    rw [if_pos (by norm_num), if_pos (by norm_num)]
    rw [show ((2 : ℕ) ⊓ 4) = 2 from by norm_num]
  exact (c9_spectrogram_shape [(0:ℝ), 0, 0, 0] 2 1 0 _ (by rw [hpy]; norm_num) h).1

end UtahOrganoids
